import Mathlib

/-!
Verification of the chunking, stitching and timestamp logic of the
automatic speech recognition pipeline
(`src/transformers/pipelines/automatic_speech_recognition.py`).

The Python functions are shallowly embedded as Lean functions:

* waveforms and per-window outputs are `List` values and lengths are `Nat`;
* Python floats are modelled as exact rationals (`ℚ`), with Python `round`
  (round half to even) modelled by `pyRound`;
* Python `range(0, stop, step)` is modelled by `pyRange`, including the
  `ValueError` it raises when `step = 0`;
* fallible code returns `Except String`.
-/

/-! ## Stride rescaling (`rescale_stride`, lines 37-54)

Python `round` on a float rounds half to even; `int(round(x))` is therefore
modelled by `pyRound : ℚ → ℤ`. -/

/-- Round half to even, as Python's builtin `round` behaves on exact values. -/
def pyRound (q : ℚ) : ℤ :=
  let f := ⌊q⌋
  if q - f < 1/2 then f
  else if 1/2 < q - f then f + 1
  else if f % 2 = 0 then f else f + 1

/-- One iteration of the loop body of `rescale_stride`:
`token_n = int(round(input_n * ratio))`,
`left = int(round(left / input_n * token_n))`,
`right = int(round(right / input_n * token_n))`. -/
def rescaleStride1 (input_n left right : ℕ) (r : ℚ) : ℤ × ℤ × ℤ :=
  let token_n := pyRound (input_n * r)
  let left2 := pyRound ((left : ℚ) / (input_n : ℚ) * (token_n : ℚ))
  let right2 := pyRound ((right : ℚ) / (input_n : ℚ) * (token_n : ℚ))
  (token_n, left2, right2)

/-- `rescale_stride(stride, ratio)` (lines 37-54): maps the loop body over the
list of stride triples. -/
def rescale_stride (strides : List (ℕ × ℕ × ℕ)) (r : ℚ) : List (ℤ × ℤ × ℤ) :=
  strides.map (fun s => rescaleStride1 s.1 s.2.1 s.2.2 r)

/-! ## The chunk producer (`chunk_iter`, lines 57-80)

The feature extractor is an external collaborator; it is modelled as
length-preserving (`processed_len == chunk.shape[-1]`, the branch in which no
stride rescaling happens), so strides stay in sample space.  Note that line 74
rebinds `chunk_len` to `chunk.shape[0]`; since the rebound value
`min(chunk_len, L - i_prev)` never cuts a later slice shorter than `L - i`
does, the slice at offset `i` always has length `min C (L - i)` — the
embedding uses that length directly. -/

/-- One window produced by `chunk_iter`: its sample offset, the actual length
of the slice (`chunk.shape[0]`), the trimmed stride pair attached to it, and
the `is_last` flag. -/
structure ChunkWindow where
  offset : ℕ
  span : ℕ
  left : ℕ
  right : ℕ
  isLast : Bool
deriving DecidableEq, Repr

/-- Python `range(0, stop, step)` for natural `step`: raises
`ValueError: range() arg 3 must not be zero` when `step = 0`, otherwise the
multiples of `step` below `stop`. -/
def pyRange (stop step : ℕ) : Except String (List ℕ) :=
  if step = 0 then .error "range arg 3 must not be zero"
  else .ok ((List.range ((stop + step - 1) / step)).map (fun k => k * step))

/-- The loop body of `chunk_iter` at offset `i`:
`chunk = inputs[i : i + chunk_len]` (so `chunk.shape[0] = min C (L - i)`),
`_stride_left = 0 if i == 0 else stride_left`,
`is_last = i + step + stride_left >= inputs_len`,
`_stride_right = 0 if is_last else stride_right`,
and the window is yielded only `if chunk.shape[0] > _stride_left`. -/
def emitWindow (L C Sl Sr step i : ℕ) : Option ChunkWindow :=
  let span := min C (L - i)
  let left := if i = 0 then 0 else Sl
  let isLast := decide (L ≤ i + step + Sl)
  let right := if L ≤ i + step + Sl then 0 else Sr
  if left < span then some ⟨i, span, left, right, isLast⟩ else none

/-- `chunk_iter(inputs, …, chunk_len, stride_left, stride_right)`
(lines 57-80): `step = chunk_len - stride_left - stride_right`, then one loop
iteration per element of `range(0, inputs_len, step)`. -/
def chunk_iter (L C Sl Sr : ℕ) : Except String (List ChunkWindow) :=
  let step := C - Sl - Sr
  (pyRange L step).map (fun offs => offs.filterMap (emitWindow L C Sl Sr step))

/-- The emitted window list in the non-degenerate case (`step > 0`), indexed
by the loop counter `k` (offset `k * step`). -/
def chunkWindows (L C Sl Sr : ℕ) : List ChunkWindow :=
  let step := C - Sl - Sr
  (List.range ((L + step - 1) / step)).filterMap (fun k => emitWindow L C Sl Sr step (k * step))

/-- The chunking path of `preprocess` (lines 362-374): the explicit sizing
check `if chunk_len < stride_left + stride_right: raise ValueError(...)`,
followed by the `chunk_iter` loop. -/
def preprocessChunked (L C Sl Sr : ℕ) : Except String (List ChunkWindow) :=
  if C < Sl + Sr then .error "Chunk length must be superior to stride length"
  else chunk_iter L C Sl Sr

/-! ## The fuzzy stitcher (`_find_longest_common_sequence`, lines 83-105) -/

/-- Positional match count between two equal-length slices, i.e.
`np.sum(np.array(a) == np.array(b))` for arrays of the same shape. -/
def matchCount : List ℤ → List ℤ → ℕ
  | a :: as, b :: bs => (if a = b then 1 else 0) + matchCount as bs
  | _, _ => 0

/-- `matches` for candidate overlap `i`: compares `sequence[-i:]` with
`new_sequence[:i]`.  When `i` exceeds `len(sequence)` the two numpy arrays
have different shapes, `==` degrades to the scalar `False` and the sum is 0. -/
def overlapMatches (seq new : List ℤ) (i : ℕ) : ℕ :=
  if i ≤ seq.length then matchCount (seq.drop (seq.length - i)) (new.take i) else 0

/-- The inner scoring loop: for `i in range(1, len(new_sequence) + 1)` score
`matches / i + i / 10000` and keep the best `i` with `matches > 1`
(defaulting to `index = 0`, `max_ = 0.0`). -/
def bestOverlap (seq new : List ℤ) : ℕ :=
  ((List.range' 1 new.length).foldl
    (fun (st : ℕ × ℚ) (i : ℕ) =>
      let eps : ℚ := (i : ℚ) / 10000
      let nMatches := overlapMatches seq new i
      let matching : ℚ := (nMatches : ℚ) / (i : ℚ) + eps
      if nMatches > 1 ∧ matching > st.2 then (i, matching) else st)
    ((0 : ℕ), (0 : ℚ))).1

/-- `_find_longest_common_sequence(sequences, tokenizer)`: start from the
first sequence with special ids removed; for each later sequence (special ids
removed) find the best overlap `i` and extend with `new_sequence[index:]`. -/
def findLongestCommonSequence (specialIds : List ℤ) (sequences : List (List ℤ)) : List ℤ :=
  match sequences with
  | [] => []
  | first :: rest =>
    let strip := fun (s : List ℤ) => s.filter (fun t => !(specialIds.contains t))
    rest.foldl (fun seq newSeq => seq ++ (strip newSeq).drop (bestOverlap seq (strip newSeq)))
      (strip first)

/-! ## The exact-trim stitcher (`postprocess`, lines 454-473)

The frame-classification model is modelled as the identity over samples, so a
window's output is its slice of the input and `total_n = span`.  The trim is
`right_n = total_n - right; items[:, left:right_n]`. -/

/-- The data slice a window carries: `inputs[offset : offset + span]`. -/
def windowData (xs : List ℤ) (w : ChunkWindow) : List ℤ :=
  (xs.drop w.offset).take w.span

/-- `items[:, left : total_n - right]` for one window output. -/
def trimWindow (xs : List ℤ) (w : ChunkWindow) : List ℤ :=
  ((windowData xs w).drop w.left).take (w.span - w.right - w.left)

/-- Trim every window output and concatenate in arrival order
(`np.concatenate(final_items, axis=1)`). -/
def exactTrimStitch (xs : List ℤ) (ws : List ChunkWindow) : List ℤ :=
  (ws.map (trimWindow xs)).flatten

/-! ## Timestamp projection (`postprocess`, lines 499-513) -/

/-- A character/word offset produced by the external tokenizer decode. -/
structure TimedOffset where
  label : String
  start_offset : ℕ
  end_offset : ℕ
deriving DecidableEq, Repr

/-- One entry of the returned `chunks` list. -/
structure TimedChunk where
  text : String
  start_sec : ℚ
  end_sec : ℚ
deriving DecidableEq, Repr

/-- The timestamp loop of `postprocess`:
`start = item[...] * inputs_to_logits_ratio; start /= sampling_rate` (same
for `stop`), appended in input order with no filtering. -/
def projectOffsets (r rate : ℚ) (offsets : List TimedOffset) : List TimedChunk :=
  offsets.foldl
    (fun chunks item =>
      let start := (item.start_offset : ℚ) * r / rate
      let stop := (item.end_offset : ℚ) * r / rate
      chunks ++ [⟨item.label, start, stop⟩])
    []

/-! ## Parameter sanitization (`_sanitize_parameters`, lines 250-286) -/

/-- Python `dict.update`: keys of `upd` override keys of `base`. -/
def dictUpdate (base upd : List (String × ℕ)) : List (String × ℕ) :=
  base.filter (fun p => ¬ upd.any (fun q => q.1 == p.1)) ++ upd

/-- The `forward_params` part of `_sanitize_parameters` (lines 269-278):
`generate_kwargs` starts empty, `max_new_tokens` is inserted when given, and
supplying `max_new_tokens` both directly and inside `generate_kwargs` raises
`ValueError`. -/
def sanitizeForward (maxNewTokens : Option ℕ) (generateKwargs : Option (List (String × ℕ))) :
    Except String (List (String × ℕ)) :=
  let base : List (String × ℕ) :=
    match maxNewTokens with
    | some v => [("max_new_tokens", v)]
    | none => []
  match generateKwargs with
  | none => .ok base
  | some gk =>
    if maxNewTokens.isSome ∧ gk.any (fun p => p.1 == "max_new_tokens") then
      .error "max_new_tokens is defined both as an argument and inside generate_kwargs argument, please use only 1 version"
    else .ok (dictUpdate base gk)

/-! ## Return-timestamps validation (`postprocess`, lines 445-452) and the
run order of the pipeline stages -/

/-- The three model families selected in `__init__` (lines 184-194). -/
inductive ModelKind where
  | ctc
  | ctcWithLm
  | seq2seq
deriving DecidableEq, Repr

/-- The `return_timestamps` values. -/
inductive TsKind where
  | char
  | word
deriving DecidableEq, Repr

/-- The two checks at the top of `postprocess` (lines 449-452).
`return_timestamps` is routed to `postprocess_params` by
`_sanitize_parameters` (line 284), so these run only in `postprocess`. -/
def postprocessCheck (kind : ModelKind) (rts : Option TsKind) : Except String Unit :=
  if rts.isSome ∧ kind = ModelKind.seq2seq then
    .error "We cannot return_timestamps yet on non-ctc models"
  else if rts = some TsKind.char ∧ kind = ModelKind.ctcWithLm then
    .error "CTC with LM cannot return char timestamps, only words"
  else .ok ()

/-- The stage order of a chunked run: `preprocess` yields the windows, the
model forward runs once per window, then `postprocess` runs its checks.
Returns the number of model invocations performed. -/
def runChunkedPipeline (kind : ModelKind) (rts : Option TsKind) (L C Sl Sr : ℕ) :
    Except String ℕ :=
  match preprocessChunked L C Sl Sr with
  | .error e => .error e
  | .ok ws =>
    match postprocessCheck kind rts with
    | .error e => .error e
    | .ok _ => .ok ws.length

/-! ## Dict input handling (`preprocess`, lines 301-319) -/

/-- A dict input to `preprocess`: the keys the code inspects. -/
structure AudioDict where
  sampling_rate : Option ℕ
  raw : Option (List ℚ)
  array : Option (List ℚ)
  stride : Option (ℕ × ℕ)

/-- Waveform extraction from a dict input (lines 307-319): the key check
`not ("sampling_rate" in inputs and ("raw" in inputs or "array" in inputs))`
raises `ValueError`; then `inputs.pop("raw", None)` falls back to
`inputs.pop("array", None)`.  The unreachable double-`None` fallthrough hits
the later ndarray check (line 339). -/
def extractDictWaveform (d : AudioDict) : Except String (List ℚ) :=
  if ¬ (d.sampling_rate.isSome ∧ (d.raw.isSome ∨ d.array.isSome)) then
    .error "When passing a dictionnary to AutomaticSpeechRecognitionPipeline, the dict needs to contain a raw key containing the numpy array representing the audio and a sampling_rate key, containing the sampling_rate associated with that array"
  else
    match d.raw with
    | some w => .ok w
    | none =>
      match d.array with
      | some w => .ok w
      | none => .error "We expect a numpy ndarray as input"

/-! ## Structure of the emitted window list

With `step = C - Sl - Sr > 0` and `L > 0` the loop emits exactly the windows
at loop indices `0, …, k0`, where `k0` is the first index whose window gets
`is_last = true`; every later iteration is dropped by the
`chunk.shape[0] > _stride_left` filter. -/

/-- The window emitted at loop index `k`, given the index `k0` of the first
(and only emitted) `is_last` window. -/
def mkWin (L C Sl Sr k0 k : ℕ) : ChunkWindow :=
  let step := C - Sl - Sr
  ⟨k * step, min C (L - k * step), if k = 0 then 0 else Sl,
    if k0 ≤ k then 0 else Sr, decide (k0 ≤ k)⟩

theorem filterMap_eq_map_on {α β : Type} (f : α → Option β) (g : α → β) :
    ∀ l : List α, (∀ a ∈ l, f a = some (g a)) → l.filterMap f = l.map g
  | [], _ => rfl
  | a :: l, h => by
    rw [List.filterMap_cons, h a (List.mem_cons_self a l), List.map_cons,
      filterMap_eq_map_on f g l (fun x hx => h x (List.mem_cons_of_mem a hx))]

theorem chunk_iter_ok (L C Sl Sr : ℕ) (hC : Sl + Sr < C) :
    chunk_iter L C Sl Sr = .ok (chunkWindows L C Sl Sr) := by
  have hstep : ¬ (C - Sl - Sr = 0) := by omega
  simp only [chunk_iter, pyRange, if_neg hstep, Except.map, chunkWindows, List.filterMap_map]
  rfl

theorem chunkWindows_structure (L C Sl Sr : ℕ) (hC : Sl + Sr < C) (hL : 0 < L) :
    ∃ k0,
      L ≤ k0 * (C - Sl - Sr) + (C - Sl - Sr) + Sl ∧
      (∀ j < k0, j * (C - Sl - Sr) + (C - Sl - Sr) + Sl < L) ∧
      chunkWindows L C Sl Sr = (List.range (k0 + 1)).map (mkWin L C Sl Sr k0) := by
  set step := C - Sl - Sr with hstepdef
  have hstep : 0 < step := by omega
  set n := (L + step - 1) / step with hn
  have hn1 : 1 ≤ n := by
    rw [hn]
    rw [Nat.le_div_iff_mul_le hstep]
    omega
  have hnstep : L ≤ n * step := by
    have h1 := Nat.div_add_mod (L + step - 1) step
    have h2 : (L + step - 1) % step < step := Nat.mod_lt _ hstep
    have h3 : n * step = step * ((L + step - 1) / step) := by rw [hn, Nat.mul_comm]
    omega
  have hex : ∃ k, L ≤ k * step + step + Sl := by
    refine ⟨n - 1, ?_⟩
    have h4 : (n - 1) * step = n * step - step := by rw [Nat.sub_mul, Nat.one_mul]
    have h5 : step ≤ n * step := Nat.le_mul_of_pos_left step hn1
    omega
  refine ⟨Nat.find hex, Nat.find_spec hex, ?_, ?_⟩
  · intro j hj
    have := Nat.find_min hex hj
    omega
  set k0 := Nat.find hex with hk0
  have hP : L ≤ k0 * step + step + Sl := Nat.find_spec hex
  have hmin : ∀ j, j < k0 → j * step + step + Sl < L := by
    intro j hj
    have := Nat.find_min hex hj
    omega
  have hk0n : k0 < n := by
    have h6 : k0 ≤ n - 1 := Nat.find_min' hex (by
      have h4 : (n - 1) * step = n * step - step := by rw [Nat.sub_mul, Nat.one_mul]
      have h5 : step ≤ n * step := Nat.le_mul_of_pos_left step hn1
      omega)
    omega
  have hlast : ∀ k, (L ≤ k * step + step + Sl) ↔ k0 ≤ k := by
    intro k
    constructor
    · intro h
      by_contra hlt
      push_neg at hlt
      exact absurd h (by have := hmin k hlt; omega)
    · intro h
      have h7 : k0 * step ≤ k * step := Nat.mul_le_mul_right step h
      omega
  have hemit : ∀ k, k ≤ k0 →
      emitWindow L C Sl Sr step (k * step) = some (mkWin L C Sl Sr k0 k) := by
    intro k hk
    have e1 : (k * step = 0) ↔ (k = 0) := by
      constructor
      · intro h
        rcases Nat.mul_eq_zero.mp h with h | h
        · exact h
        · omega
      · intro h
        rw [h, Nat.zero_mul]
    have e2 := hlast k
    have e3 : decide (L ≤ k * step + step + Sl) = decide (k0 ≤ k) :=
      decide_eq_decide.mpr e2
    have hlt : (if k = 0 then 0 else Sl) < min C (L - k * step) := by
      by_cases h0 : k = 0
      · rw [if_pos h0, h0, Nat.zero_mul]
        exact Nat.lt_min.mpr ⟨by omega, by omega⟩
      · rw [if_neg h0]
        have h8 := hmin (k - 1) (by omega)
        have h9 : (k - 1) * step = k * step - step := by rw [Nat.sub_mul, Nat.one_mul]
        have h10 : step ≤ k * step := Nat.le_mul_of_pos_left step (by omega)
        exact Nat.lt_min.mpr ⟨by omega, by omega⟩
    simp only [emitWindow, mkWin, e1, e2, e3]
    rw [if_pos hlt]
  have hdrop : ∀ k, k0 < k → emitWindow L C Sl Sr step (k * step) = none := by
    intro k hk
    have hkz : ¬ (k * step = 0) := by
      intro h
      rcases Nat.mul_eq_zero.mp h with h | h <;> omega
    have h11 : (k0 + 1) * step ≤ k * step := Nat.mul_le_mul_right step (by omega)
    have h12 : (k0 + 1) * step = k0 * step + step := by rw [Nat.succ_mul]
    have hspan : min C (L - k * step) ≤ Sl :=
      le_trans (Nat.min_le_right _ _) (by omega)
    simp only [emitWindow]
    rw [if_neg hkz, if_neg (Nat.not_lt.mpr hspan)]
  simp only [chunkWindows]
  rw [← hstepdef, ← hn]
  have hnsplit : n = (k0 + 1) + (n - (k0 + 1)) := by omega
  rw [hnsplit, List.range_add, List.filterMap_append, List.filterMap_map]
  rw [filterMap_eq_map_on _ (mkWin L C Sl Sr k0) _
    (fun a ha => hemit a (by have := List.mem_range.mp ha; omega))]
  have hnil : List.filterMap
      ((fun k => emitWindow L C Sl Sr step (k * step)) ∘ fun x => k0 + 1 + x)
      (List.range (n - (k0 + 1))) = [] :=
    List.filterMap_eq_nil_iff.mpr (fun a _ => hdrop (k0 + 1 + a) (by omega))
  rw [hnil, List.append_nil]

/-! ## Claim C1 -/

/-- Claim C1: when chunking is enabled, a configured chunk length that does
not strictly exceed `stride_left + stride_right` makes preprocessing fail
with a `ValueError` before any window is produced.  The case
`chunk_len < stride_left + stride_right` hits the explicit sizing check; the
boundary case `chunk_len = stride_left + stride_right` makes `step = 0`, so
`range(0, inputs_len, step)` itself raises `ValueError` before the first
window. -/
theorem preprocess_rejects_short_chunk (L C Sl Sr : ℕ) (h : C ≤ Sl + Sr) :
    ∃ e, preprocessChunked L C Sl Sr = .error e := by
  by_cases hlt : C < Sl + Sr
  · exact ⟨_, by rw [preprocessChunked, if_pos hlt]⟩
  · have hstep : C - Sl - Sr = 0 := by omega
    refine ⟨"range arg 3 must not be zero", ?_⟩
    rw [preprocessChunked, if_neg hlt]
    simp only [chunk_iter, hstep, pyRange]
    rfl

/-- Witness for C1 at the boundary `chunk_len = stride_left + stride_right`,
the case the claim singles out. -/
theorem preprocess_rejects_short_chunk_witness :
    (4 : ℕ) ≤ 2 + 2 ∧ ∃ e, preprocessChunked 16000 4 2 2 = .error e :=
  ⟨by decide, preprocess_rejects_short_chunk 16000 4 2 2 (by decide)⟩

/-! ## Claims C3 and C4 -/

/-- Counterexample to claim C3 as stated: `L = 4`, `C = 2`, `Sl = Sr = 0`
satisfy `L > 0` and `C > Sl + Sr`, yet both emitted windows have
`left_trim = 0`, so the window with `left_trim = 0` is not unique. -/
theorem chunk_left_zero_not_unique :
    chunk_iter 4 2 0 0 =
      .ok [⟨0, 2, 0, 0, false⟩, ⟨2, 2, 0, 0, true⟩] ∧
    (chunkWindows 4 2 0 0).countP (fun w => w.left == 0) = 2 := by
  constructor
  · rfl
  · rfl

/-- Claim C3 (amended): for every waveform length `L > 0` and parameters with
`C > Sl + Sr`, exactly one emitted window has `is_last = true` and it is the
last emitted one; and provided additionally `Sl > 0`, exactly one emitted
window has `left_trim = 0`. -/
theorem chunk_iter_unique_flags (L C Sl Sr : ℕ) (hC : Sl + Sr < C) (hL : 0 < L)
    (hSl : 0 < Sl) :
    (chunkWindows L C Sl Sr).countP (fun w => w.isLast) = 1 ∧
    (chunkWindows L C Sl Sr).countP (fun w => w.left == 0) = 1 ∧
    (∃ w, (chunkWindows L C Sl Sr).getLast? = some w ∧ w.isLast = true) := by
  obtain ⟨k0, hP, hmin, hstruct⟩ := chunkWindows_structure L C Sl Sr hC hL
  rw [hstruct]
  refine ⟨?_, ?_, ?_⟩
  · rw [List.countP_map, List.range_succ, List.countP_append]
    have h1 : (List.range k0).countP ((fun w => w.isLast) ∘ mkWin L C Sl Sr k0) = 0 :=
      List.countP_eq_zero.mpr (fun a ha => by
        have := List.mem_range.mp ha
        simp only [Function.comp, mkWin, decide_eq_true_eq]
        omega)
    rw [h1]
    simp [mkWin]
  · rw [List.countP_map, List.range_succ_eq_map, List.countP_cons]
    have h2 : (List.map Nat.succ (List.range k0)).countP
        ((fun w => w.left == 0) ∘ mkWin L C Sl Sr k0) = 0 := by
      rw [List.countP_map]
      refine List.countP_eq_zero.mpr (fun a ha => ?_)
      simp only [Function.comp_apply, mkWin, beq_iff_eq]
      rw [if_neg (Nat.succ_ne_zero a)]
      omega
    rw [h2]
    simp [mkWin]
  · refine ⟨mkWin L C Sl Sr k0 k0, ?_, ?_⟩
    · rw [List.range_succ, List.map_append]
      simp [List.getLast?_concat]
    · simp [mkWin]

/-- Witness for the amended C3. -/
theorem chunk_iter_unique_flags_witness :
    1 + 1 < 4 ∧ 0 < 10 ∧ 0 < 1 ∧
      ((chunkWindows 10 4 1 1).countP (fun w => w.isLast) = 1 ∧
        (chunkWindows 10 4 1 1).countP (fun w => w.left == 0) = 1 ∧
        (∃ w, (chunkWindows 10 4 1 1).getLast? = some w ∧ w.isLast = true)) :=
  ⟨by decide, by decide, by decide,
    chunk_iter_unique_flags 10 4 1 1 (by decide) (by decide) (by decide)⟩

/-- Claim C4: every sample position `x < L` lies in the span of some emitted
window, i.e. the emitted spans cover `[0, L)` even though degenerate trailing
slivers are dropped. -/
theorem chunk_windows_cover (L C Sl Sr x : ℕ) (hC : Sl + Sr < C) (hL : 0 < L)
    (hx : x < L) :
    ∃ w ∈ chunkWindows L C Sl Sr, w.offset ≤ x ∧ x < w.offset + w.span := by
  obtain ⟨k0, hP, hmin, hstruct⟩ := chunkWindows_structure L C Sl Sr hC hL
  rw [hstruct]
  set step := C - Sl - Sr with hstepdef
  have hstep : 0 < step := by omega
  have h1 : x / step * step ≤ x := Nat.div_mul_le_self x step
  have h2 : x < x / step * step + step := by
    have h3 := Nat.div_add_mod x step
    have h4 : x % step < step := Nat.mod_lt _ hstep
    have h5 : x / step * step = step * (x / step) := Nat.mul_comm _ _
    omega
  by_cases hq : x / step ≤ k0
  · refine ⟨mkWin L C Sl Sr k0 (x / step),
      List.mem_map_of_mem _ (List.mem_range.mpr (by omega)), ?_, ?_⟩
    · simp only [mkWin]
      rw [← hstepdef]
      exact h1
    · simp only [mkWin]
      rw [← hstepdef]
      have h6 : x - x / step * step < min C (L - x / step * step) :=
        Nat.lt_min.mpr ⟨by omega, by omega⟩
      omega
  · push_neg at hq
    have h7 : (k0 + 1) * step ≤ x / step * step := Nat.mul_le_mul_right step (by omega)
    have h8 : (k0 + 1) * step = k0 * step + step := Nat.succ_mul _ _
    refine ⟨mkWin L C Sl Sr k0 k0,
      List.mem_map_of_mem _ (List.mem_range.mpr (by omega)), ?_, ?_⟩
    · simp only [mkWin]
      rw [← hstepdef]
      omega
    · simp only [mkWin]
      rw [← hstepdef]
      have h9 : x - k0 * step < min C (L - k0 * step) :=
        Nat.lt_min.mpr ⟨by omega, by omega⟩
      omega

/-- Witness for C4. -/
theorem chunk_windows_cover_witness :
    1 + 1 < 4 ∧ 0 < 10 ∧ 7 < 10 ∧
      ∃ w ∈ chunkWindows 10 4 1 1, w.offset ≤ 7 ∧ 7 < w.offset + w.span :=
  ⟨by decide, by decide, by decide,
    chunk_windows_cover 10 4 1 1 7 (by decide) (by decide) (by decide)⟩

/-! ## Claim C9 -/

theorem trimWindow_drop_take (xs : List ℤ) (w : ChunkWindow) :
    trimWindow xs w = (xs.drop (w.offset + w.left)).take (w.span - w.left - w.right) := by
  rw [trimWindow, windowData, List.drop_take, List.drop_drop, List.take_take,
    Nat.min_eq_left (by omega)]
  congr 1
  omega

/-- Concatenating the trimmed outputs of windows `0, …, j` (all of them
non-final when `j < k0`) yields the prefix of the input up to the start of
window `j + 1`'s kept region. -/
theorem stitch_prefix_eq (xs : List ℤ) (C Sl Sr k0 : ℕ) (hC : Sl + Sr < C)
    (hspan : ∀ k, k < k0 → min C (xs.length - k * (C - Sl - Sr)) = C) :
    ∀ j, j < k0 →
      ((List.range (j + 1)).map (fun k => trimWindow xs (mkWin xs.length C Sl Sr k0 k))).flatten
        = xs.take ((j + 1) * (C - Sl - Sr) + Sl) := by
  intro j
  induction j with
  | zero =>
    intro hj
    have hr : List.range (0 + 1) = [0] := rfl
    rw [hr]
    simp only [List.map_cons, List.map_nil, List.flatten_cons,
      List.flatten_nil, List.append_nil, trimWindow_drop_take, mkWin, if_true]
    rw [if_neg (by omega : ¬ k0 ≤ 0), hspan 0 hj]
    rw [Nat.zero_mul, Nat.zero_add, List.drop_zero]
    congr 1
    omega
  | succ j ih =>
    intro hj
    rw [List.range_succ, List.map_append, List.flatten_append, ih (by omega)]
    simp only [List.map_cons, List.map_nil, List.flatten_cons, List.flatten_nil,
      List.append_nil, trimWindow_drop_take, mkWin]
    rw [if_neg (Nat.succ_ne_zero j), if_neg (by omega : ¬ k0 ≤ j + 1), hspan (j + 1) hj]
    have h1 : (j + 2) * (C - Sl - Sr) + Sl
        = ((j + 1) * (C - Sl - Sr) + Sl) + (C - Sl - Sr) := by
      have h2 : (j + 2) * (C - Sl - Sr) = (j + 1) * (C - Sl - Sr) + (C - Sl - Sr) :=
        Nat.succ_mul _ _
      omega
    conv_rhs => rw [h1, List.take_add]

/-- Claim C9 (amended): trimming each window output to `[left, total_n - right)`
and concatenating in arrival order reproduces the original flat sequence,
provided every non-final emitted window is untruncated (its span is the full
chunk length `C`).  Without that proviso the round trip can drop samples
(see the counterexample below). -/
theorem exact_trim_round_trip (xs : List ℤ) (C Sl Sr : ℕ) (hL : 0 < xs.length)
    (hC : Sl + Sr < C)
    (hfull : ∀ w ∈ chunkWindows xs.length C Sl Sr, w.isLast = false → w.span = C) :
    exactTrimStitch xs (chunkWindows xs.length C Sl Sr) = xs := by
  obtain ⟨k0, hP, hmin, hstruct⟩ := chunkWindows_structure xs.length C Sl Sr hC hL
  rw [hstruct] at hfull
  have hspan : ∀ k, k < k0 → min C (xs.length - k * (C - Sl - Sr)) = C := by
    intro k hk
    have h := hfull (mkWin xs.length C Sl Sr k0 k)
      (List.mem_map_of_mem _ (List.mem_range.mpr (by omega)))
      (by simp only [mkWin, decide_eq_false_iff_not]; omega)
    simpa only [mkWin] using h
  simp only [exactTrimStitch]
  rw [hstruct, List.map_map]
  simp only [Function.comp_def]
  by_cases hk0 : k0 = 0
  · subst hk0
    have hr : List.range (0 + 1) = [0] := rfl
    rw [hr]
    simp only [List.map_cons, List.map_nil, List.flatten_cons,
      List.flatten_nil, List.append_nil, trimWindow_drop_take, mkWin, if_true]
    rw [if_pos (le_refl 0)]
    rw [Nat.zero_mul, Nat.zero_add, List.drop_zero]
    have hmn : min C (xs.length - 0) = xs.length := Nat.min_eq_right (by omega)
    rw [Nat.sub_zero, hmn, Nat.sub_zero, List.take_length]
  · obtain ⟨m, rfl⟩ : ∃ m, k0 = m + 1 := ⟨k0 - 1, by omega⟩
    rw [List.range_succ, List.map_append, List.flatten_append,
      stitch_prefix_eq xs C Sl Sr (m + 1) hC hspan m (by omega)]
    simp only [List.map_cons, List.map_nil, List.flatten_cons, List.flatten_nil,
      List.append_nil, trimWindow_drop_take, mkWin]
    rw [if_neg (Nat.succ_ne_zero m), if_pos (le_refl (m + 1))]
    have h5 : (m + 1) * (C - Sl - Sr) + Sl < xs.length := by
      have h6 := hmin m (by omega)
      have h7 : (m + 1) * (C - Sl - Sr) = m * (C - Sl - Sr) + (C - Sl - Sr) :=
        Nat.succ_mul _ _
      omega
    have hmn : min C (xs.length - (m + 1) * (C - Sl - Sr))
        = xs.length - (m + 1) * (C - Sl - Sr) := Nat.min_eq_right (by omega)
    have h8 : xs.length - (m + 1) * (C - Sl - Sr) - Sl - 0
        = xs.length - ((m + 1) * (C - Sl - Sr) + Sl) := by omega
    rw [hmn, h8, ← List.take_add, Nat.add_sub_cancel' (by omega), List.take_length]

/-- Counterexample to claim C9 as stated: over the waveform `[0, 1, 2]` with
`C = 4`, `Sl = 1`, `Sr = 2` (so `L > 0` and `C > Sl + Sr`), the first window
is truncated to span 3 but is not final, so its right trim cuts real data:
stitching returns `[0, 2]`, not the original `[0, 1, 2]`. -/
theorem exact_trim_round_trip_fails :
    exactTrimStitch [0, 1, 2] (chunkWindows 3 4 1 2) = [0, 2] ∧
      ([0, 2] : List ℤ) ≠ [0, 1, 2] := by
  constructor
  · rfl
  · decide

/-- Witness for the amended C9. -/
theorem exact_trim_round_trip_witness :
    0 < ([0, 1, 2, 3, 4, 5, 6, 7, 8, 9] : List ℤ).length ∧ 1 + 1 < 4 ∧
      (∀ w ∈ chunkWindows ([0, 1, 2, 3, 4, 5, 6, 7, 8, 9] : List ℤ).length 4 1 1,
        w.isLast = false → w.span = 4) ∧
      exactTrimStitch [0, 1, 2, 3, 4, 5, 6, 7, 8, 9]
        (chunkWindows ([0, 1, 2, 3, 4, 5, 6, 7, 8, 9] : List ℤ).length 4 1 1)
        = [0, 1, 2, 3, 4, 5, 6, 7, 8, 9] :=
  ⟨by decide, by decide, by decide,
    exact_trim_round_trip [0, 1, 2, 3, 4, 5, 6, 7, 8, 9] 4 1 1 (by decide) (by decide)
      (by decide)⟩

/-! ## Claim C2 -/

theorem pyRound_le_add_half (q : ℚ) : (pyRound q : ℚ) ≤ q + 1/2 := by
  simp only [pyRound]
  have hf := Int.floor_le q
  split_ifs with h1 h2 h3
  · linarith
  · rw [not_lt] at h1
    push_cast
    linarith
  · linarith
  · rw [not_lt] at h1
    push_cast
    linarith

theorem pyRound_nonneg (q : ℚ) (h : 0 ≤ q) : 0 ≤ pyRound q := by
  simp only [pyRound]
  have hf : 0 ≤ ⌊q⌋ := Int.floor_nonneg.mpr h
  split_ifs <;> omega

/-- Counterexample to claim C2 as stated: the stride `(2, 1, 1)` satisfies
`left + right ≤ window_length`, yet rescaling by the positive ratio `3/2`
yields `(3, 2, 2)` — Python rounds both `1/2*3 = 1.5` halves up to the even
integer 2 — and `2 + 2 ≤ 3` fails. -/
theorem rescale_stride_invariant_fails :
    rescale_stride [(2, 1, 1)] (3/2) = [(3, 2, 2)] ∧ ¬ ((2 : ℤ) + 2 ≤ 3) := by
  constructor
  · simp only [rescale_stride, rescaleStride1, List.map_cons, List.map_nil]
    norm_num [pyRound]
  · decide

/-- Claim C2 (amended): for a stride triple with `left + right ≤ window_length`
and a positive ratio, the rescaled triple satisfies the weaker bound
`left2 + right2 ≤ token_n + 1`; the exact invariant `left2 + right2 ≤ token_n`
can fail by one when both trims round halves upward (see the
counterexample). -/
theorem rescale_stride_near_invariant (input_n left right : ℕ) (r : ℚ)
    (hn : 0 < input_n) (hlr : left + right ≤ input_n) (hr : 0 < r) :
    (rescaleStride1 input_n left right r).2.1 + (rescaleStride1 input_n left right r).2.2
      ≤ (rescaleStride1 input_n left right r).1 + 1 := by
  simp only [rescaleStride1]
  set T := pyRound ((input_n : ℚ) * r) with hT
  have hT0 : 0 ≤ T := pyRound_nonneg _ (by positivity)
  have hab : (left : ℚ) / (input_n : ℚ) * (T : ℚ) + (right : ℚ) / (input_n : ℚ) * (T : ℚ)
      ≤ (T : ℚ) := by
    have h1 : ((left : ℚ) + right) / input_n ≤ 1 := by
      rw [div_le_one (by exact_mod_cast hn)]
      exact_mod_cast hlr
    have h2 : (left : ℚ) / (input_n : ℚ) * (T : ℚ) + (right : ℚ) / (input_n : ℚ) * (T : ℚ)
        = (((left : ℚ) + right) / input_n) * T := by ring
    rw [h2]
    calc (((left : ℚ) + right) / input_n) * (T : ℚ)
        ≤ 1 * T := mul_le_mul_of_nonneg_right h1 (by exact_mod_cast hT0)
      _ = T := one_mul _
  have h3 := pyRound_le_add_half ((left : ℚ) / (input_n : ℚ) * (T : ℚ))
  have h4 := pyRound_le_add_half ((right : ℚ) / (input_n : ℚ) * (T : ℚ))
  have h5 : (pyRound ((left : ℚ) / (input_n : ℚ) * (T : ℚ)) : ℚ)
      + (pyRound ((right : ℚ) / (input_n : ℚ) * (T : ℚ)) : ℚ) ≤ (T : ℚ) + 1 := by
    linarith
  exact_mod_cast h5

/-- Witness for the amended C2, at the counterexample input where the bound
is tight: `2 + 2 ≤ 3 + 1`. -/
theorem rescale_stride_near_invariant_witness :
    0 < 2 ∧ 1 + 1 ≤ 2 ∧ (0 : ℚ) < 3/2 ∧
      (rescaleStride1 2 1 1 (3/2)).2.1 + (rescaleStride1 2 1 1 (3/2)).2.2
        ≤ (rescaleStride1 2 1 1 (3/2)).1 + 1 :=
  ⟨by norm_num, by norm_num, by norm_num,
    rescale_stride_near_invariant 2 1 1 (3/2) (by norm_num) (by norm_num) (by norm_num)⟩

/-! ## Claim C5 -/

/-- Claim C5: the fuzzy stitcher scores candidate overlaps by
`matches / i + i / 10000`, requires `matches > 1` and keeps the best `i`
(default 0); on `[1,2,3,4,5]` and `[4,5,6,7]` it detects the overlap of
length 2 and yields `[1,2,3,4,5,6,7]`, and on `[1,2,3]` and `[9,8,7]` no
candidate qualifies, so it concatenates to `[1,2,3,9,8,7]`. -/
theorem fuzzy_stitch_examples :
    findLongestCommonSequence [] [[1, 2, 3, 4, 5], [4, 5, 6, 7]] = [1, 2, 3, 4, 5, 6, 7] ∧
    findLongestCommonSequence [] [[1, 2, 3], [9, 8, 7]] = [1, 2, 3, 9, 8, 7] := by
  constructor <;>
    norm_num [findLongestCommonSequence, bestOverlap, overlapMatches, matchCount,
      List.range', List.foldl_cons, List.foldl_nil, List.filter_cons, List.filter_nil]

/-! ## Claim C6 -/

theorem foldl_append_eq_map {α β : Type} (f : α → β) :
    ∀ (l : List α) (acc : List β),
      l.foldl (fun cs item => cs ++ [f item]) acc = acc ++ l.map f
  | [], acc => by simp
  | a :: l, acc => by
    simp only [List.foldl_cons, List.map_cons]
    rw [foldl_append_eq_map f l (acc ++ [f a])]
    simp

/-- Counterexample to claim C6 as stated: with
`frames_per_sample_ratio = 1/2` and `sampling_rate = 16000`, the offset
`(start_frame = 100, end_frame = 200)` is projected to
`(100 * (1/2) / 16000, 200 * (1/2) / 16000) = (1/320 s, 1/160 s)`, i.e.
`(0.003125 s, 0.00625 s)` — not the `(3.125 s, 6.25 s)` the claim states
(those values are off by a factor of 1000 from the stated formula). -/
theorem timestamp_example_fails :
    projectOffsets (1/2) 16000 [⟨"x", 100, 200⟩] = [⟨"x", 1/320, 1/160⟩] ∧
    (1/320 : ℚ) ≠ 25/8 ∧ (1/160 : ℚ) ≠ 25/4 := by
  refine ⟨?_, by norm_num, by norm_num⟩
  norm_num [projectOffsets, TimedChunk.mk.injEq]

/-- Claim C6 (amended): the projector maps each offset, in input order and
with no filtering, to `seconds = frame_index * frames_per_sample_ratio /
sampling_rate`; for ratio `1/2` and rate 16000 the offset `(100, 200)` maps
to `(0.003125 s, 0.00625 s)`. -/
theorem timestamp_projection (r rate : ℚ) (offs : List TimedOffset) :
    projectOffsets r rate offs
        = offs.map (fun o =>
            ⟨o.label, (o.start_offset : ℚ) * r / rate, (o.end_offset : ℚ) * r / rate⟩) ∧
    projectOffsets (1/2) 16000 [⟨"x", 100, 200⟩] = [⟨"x", 1/320, 1/160⟩] := by
  constructor
  · simp only [projectOffsets]
    exact (foldl_append_eq_map _ offs []).trans (List.nil_append _)
  · norm_num [projectOffsets, TimedChunk.mk.injEq]

/-! ## Claim C7 -/

/-- Counterexample to claim C7 as stated: for a seq2seq model with
`return_timestamps` requested and a valid chunking configuration,
preprocessing succeeds and emits 5 windows (so the model is invoked 5
times); the unsupported-combination `ValueError` is raised only by
`postprocess`, after those invocations — not eagerly during preprocessing. -/
theorem timestamps_error_not_in_preprocess :
    preprocessChunked 10 4 1 1 = .ok (chunkWindows 10 4 1 1) ∧
    (chunkWindows 10 4 1 1).length = 5 ∧
    postprocessCheck ModelKind.seq2seq (some TsKind.word)
      = .error "We cannot return_timestamps yet on non-ctc models" ∧
    runChunkedPipeline ModelKind.seq2seq (some TsKind.word) 10 4 1 1
      = .error "We cannot return_timestamps yet on non-ctc models" :=
  ⟨rfl, rfl, rfl, rfl⟩

/-- Claim C7 (amended): chunk-sizing errors are raised during preprocessing,
but an unsupported `return_timestamps` / model-family combination (timestamps
with seq2seq, or char timestamps with the external beam decoder) raises its
`ValueError` in `postprocess`, after the model has been invoked: for any
valid chunking configuration the preprocessing stage succeeds and the run
fails with the postprocess error. -/
theorem timestamps_error_raised_in_postprocess (L C Sl Sr : ℕ) (ts : TsKind)
    (hC : Sl + Sr < C) :
    (∃ ws, preprocessChunked L C Sl Sr = .ok ws) ∧
    postprocessCheck ModelKind.seq2seq (some ts)
      = .error "We cannot return_timestamps yet on non-ctc models" ∧
    postprocessCheck ModelKind.ctcWithLm (some TsKind.char)
      = .error "CTC with LM cannot return char timestamps, only words" ∧
    runChunkedPipeline ModelKind.seq2seq (some ts) L C Sl Sr
      = .error "We cannot return_timestamps yet on non-ctc models" := by
  have hpre : preprocessChunked L C Sl Sr = .ok (chunkWindows L C Sl Sr) := by
    rw [preprocessChunked, if_neg (by omega)]
    exact chunk_iter_ok L C Sl Sr hC
  have hpc : postprocessCheck ModelKind.seq2seq (some ts)
      = .error "We cannot return_timestamps yet on non-ctc models" := by
    rw [postprocessCheck, if_pos ⟨rfl, rfl⟩]
  refine ⟨⟨_, hpre⟩, hpc, rfl, ?_⟩
  simp only [runChunkedPipeline, hpre, hpc]

/-- Witness for the amended C7. -/
theorem timestamps_error_raised_in_postprocess_witness :
    1 + 1 < 4 ∧
      ((∃ ws, preprocessChunked 10 4 1 1 = .ok ws) ∧
        postprocessCheck ModelKind.seq2seq (some TsKind.word)
          = .error "We cannot return_timestamps yet on non-ctc models" ∧
        postprocessCheck ModelKind.ctcWithLm (some TsKind.char)
          = .error "CTC with LM cannot return char timestamps, only words" ∧
        runChunkedPipeline ModelKind.seq2seq (some TsKind.word) 10 4 1 1
          = .error "We cannot return_timestamps yet on non-ctc models") :=
  ⟨by decide, timestamps_error_raised_in_postprocess 10 4 1 1 TsKind.word (by decide)⟩

/-! ## Claim C8 -/

/-- Claim C8: `_sanitize_parameters` raises `ValueError` exactly when
`max_new_tokens` is supplied both as a direct argument and as a key of
`generate_kwargs`; supplying it in only one of the two places is accepted. -/
theorem max_new_tokens_conflict (m : Option ℕ) (gk : Option (List (String × ℕ))) :
    (∃ e, sanitizeForward m gk = .error e)
      ↔ m.isSome = true ∧ ∃ l, gk = some l ∧ l.any (fun p => p.1 == "max_new_tokens") = true := by
  cases gk with
  | none =>
    simp only [sanitizeForward]
    constructor
    · rintro ⟨e, he⟩
      exact Except.noConfusion he
    · rintro ⟨-, l, hl, -⟩
      exact Option.noConfusion hl
  | some l =>
    simp only [sanitizeForward]
    by_cases hc : m.isSome = true ∧ l.any (fun p => p.1 == "max_new_tokens") = true
    · rw [if_pos hc]
      exact ⟨fun _ => ⟨hc.1, l, rfl, hc.2⟩, fun _ => ⟨_, rfl⟩⟩
    · rw [if_neg hc]
      constructor
      · rintro ⟨e, he⟩
        exact Except.noConfusion he
      · rintro ⟨hm, l', hl', ha⟩
        cases hl'
        exact absurd ⟨hm, ha⟩ hc

/-! ## Claim C10 -/

/-- Claim C10: a dict input carrying the waveform under `"array"` (with
`"sampling_rate"`, without `"raw"`) is processed exactly like the same
waveform under `"raw"`, and a dict with neither key raises `ValueError`. -/
theorem dict_array_alias (sr : ℕ) (w : List ℚ) (st : Option (ℕ × ℕ)) :
    extractDictWaveform ⟨some sr, none, some w, st⟩
        = extractDictWaveform ⟨some sr, some w, none, st⟩ ∧
    extractDictWaveform ⟨some sr, some w, none, st⟩ = .ok w ∧
    ∃ e, extractDictWaveform ⟨some sr, none, none, st⟩ = .error e :=
  ⟨rfl, rfl, ⟨_, rfl⟩⟩
